import Mathlib

/-!
Verification of the chunked world-persistence engine (`src/mapbuffer.cpp`):
an in-memory cache of submaps keyed by absolute submap coordinate, with
quad-grouped save files, lazy load, and a uniform-chunk skip/tombstone
optimisation.  The definitions below are a shallow embedding of the C++
source; machine behaviour that lives outside the given file
(`write_to_file`, `generate_uniform_omt`) is modelled from the spec and
marked as such.
-/

namespace Mapbuffer

/-- Absolute integer triple coordinate (`tripoint_abs_sm` / `tripoint_abs_omt`
    depending on context). -/
structure Tripoint where
  x : Int
  y : Int
  z : Int
deriving DecidableEq, Repr

/-- One JSON member value as far as this file inspects it: an integer
    (the `version` member), an integer array (`coordinates`), or an opaque
    payload value handed to `submap::load`. -/
inductive JVal where
  | int : Int → JVal
  | arr : List Int → JVal
  | payload : Nat → JVal
deriving DecidableEq, Repr

/-- A JSON object as an ordered list of members (iteration order of members
    is the list order; the source treats it as unspecified). -/
abbrev JsonObject := List (String × JVal)

/-- A submap (chunk).  `is_uniform` and `reverted` are the two predicates the
    cache consults; `payload` stands for the opaque interior content written
    by `submap::store`; `loadCalls` records every `submap::load` invocation
    made while deserializing (member name, member value, version argument),
    since `submap::load` itself is outside this file. -/
structure Submap where
  is_uniform : Bool := true
  reverted : Bool := false
  payload : Nat := 0
  loadCalls : List (String × JVal × Int) := []
deriving DecidableEq, Repr

/-- The chunk cache: `std::map<tripoint_abs_sm, std::unique_ptr<submap>>`.
    An entry `(p, none)` is a key present in the map holding a null
    `unique_ptr` (which `operator[]` default-inserts); `(p, some s)` is a
    resident chunk. -/
abbrev Cache := List (Tripoint × Option Submap)

/-- `std::map::find`: the value stored at key `p`, if the key is present. -/
def Cache.findVal : Cache → Tripoint → Option (Option Submap)
  | [], _ => none
  | (q, v) :: rest, p => if q = p then some v else Cache.findVal rest p

/-- `std::map::count(p) > 0`: is the key present (possibly holding null)? -/
def Cache.hasKey (c : Cache) (p : Tripoint) : Bool :=
  (c.findVal p).isSome

/-- The chunk actually stored at `p`: `some s` iff the key is present and
    holds a non-null pointer. -/
def Cache.residentAt (c : Cache) (p : Tripoint) : Option Submap :=
  match c.findVal p with
  | some v => v
  | none => none

/-- `map[p] = v`: overwrite the value at an existing key, or insert. -/
def Cache.setKey : Cache → Tripoint → Option Submap → Cache
  | [], p, v => [(p, v)]
  | (q, w) :: rest, p, v =>
      if q = p then (q, v) :: rest else (q, w) :: Cache.setKey rest p v

/-- `std::map::erase(find(p))`. -/
def Cache.eraseKey : Cache → Tripoint → Cache
  | [], _ => []
  | (q, w) :: rest, p =>
      if q = p then rest else (q, w) :: Cache.eraseKey rest p

/-- `map::operator[]` as used for reading (`submaps[p].get()`): returns the
    stored value, default-inserting a null entry when the key is absent, and
    returns the possibly-grown map. -/
def Cache.index (c : Cache) (p : Tripoint) : Option Submap × Cache :=
  match c.findVal p with
  | some v => (v, c)
  | none => (none, c ++ [(p, none)])

/-- `mapbuffer::add_submap( p, unique_ptr<submap> & sm )`, lines 72-81:
    rejects when the key is already present, otherwise moves the pointer in.
    The third component is the caller's `unique_ptr` after the call (moved
    out on success, untouched on rejection). -/
def add_submap (c : Cache) (p : Tripoint) (sm : Option Submap) :
    Bool × Cache × Option Submap :=
  if c.hasKey p then (false, c, sm)
  else (true, c.setKey p sm, none)

/-- Diagnostics emitted through `debugmsg`. -/
inductive LogMsg where
  | removeMissing (p : Tripoint)
  | dupLoaded (p : Tripoint)
  | integrity (path : String) (p : Tripoint)
deriving DecidableEq, Repr

/-- `mapbuffer::remove_submap`, lines 95-103: erase the entry if present,
    otherwise log and leave the cache unchanged. -/
def remove_submap (c : Cache) (p : Tripoint) : Cache × List LogMsg :=
  if c.hasKey p then (c.eraseKey p, [])
  else (c, [LogMsg.removeMissing p])

/-! ## Coordinate projections and paths -/

/-- Floor division used by the coordinate projections. -/
def idiv (a b : Int) : Int := Int.fdiv a b

/-- `project_to<coords::omt>` on a submap coordinate: 2 submaps per overmap
    terrain tile edge. -/
def omtOf (p : Tripoint) : Tripoint := ⟨idiv p.x 2, idiv p.y 2, p.z⟩

/-- `project_to<coords::sm>` on an omt coordinate. -/
def smOf (p : Tripoint) : Tripoint := ⟨2 * p.x, 2 * p.y, p.z⟩

/-- `project_to<coords::seg>` on an omt coordinate: 32 omt per segment edge. -/
def segOf (p : Tripoint) : Tripoint := ⟨idiv p.x 32, idiv p.y 32, p.z⟩

/-- `find_dirname`, lines 41-47: `<world>/maps/<segX>.<segY>.<segZ>`. -/
def find_dirname (worldBase : String) (om_addr : Tripoint) : String :=
  worldBase ++ "/maps/" ++ toString (segOf om_addr).x ++ "." ++
    toString (segOf om_addr).y ++ "." ++ toString (segOf om_addr).z

/-- `find_quad_path`, lines 36-39: `<dir>/<x>.<y>.<z>.map`. -/
def find_quad_path (dirname : String) (om_addr : Tripoint) : String :=
  dirname ++ "/" ++ toString om_addr.x ++ "." ++ toString om_addr.y ++ "." ++
    toString om_addr.z ++ ".map"

/-- The legacy quad filename, lines 299-302: the three coordinates joined
    with `.` through a locale-sensitive integer formatter `lfmt` (which may
    insert grouping separators). -/
def legacy_quad_path (lfmt : Int → String) (dirname : String)
    (om_addr : Tripoint) : String :=
  dirname ++ "/" ++ lfmt om_addr.x ++ "." ++ lfmt om_addr.y ++ "." ++
    lfmt om_addr.z ++ ".map"

/-! ## The on-disk state for saving -/

/-- One chunk record as written by `save_quad`, lines 256-269:
    `version`, `coordinates`, then the chunk payload via `submap::store`. -/
structure WriteRec where
  version : Int
  coords : Tripoint
  payload : Nat
deriving DecidableEq, Repr

/-- The file system as far as saving observes it: a list of
    `(path, file content)` entries; lookup takes the first match. -/
abbrev Disk := List (String × List WriteRec)

/-- Content of the file at `path`, if one exists. -/
def Disk.lookupFile : Disk → String → Option (List WriteRec)
  | [], _ => none
  | (q, f) :: rest, path => if q = path then some f else Disk.lookupFile rest path

/-- `fs::exists` / `file_exist`. -/
def Disk.hasFile (d : Disk) (path : String) : Bool :=
  (d.lookupFile path).isSome

/-- `fs::remove`: drop the file at `path`. -/
def Disk.removeFile (d : Disk) (path : String) : Disk :=
  d.filter (fun e => decide (e.1 ≠ path))

/-- A completed `write_to_file`: the file at `path` now holds `content`. -/
def Disk.writeFile (d : Disk) (path : String) (content : List WriteRec) : Disk :=
  (path, content) :: d.removeFile path

/-! ## save_quad -/

/-- `offsets`, line 204: `point_zero`, `point_south`, `point_east`,
    `point_south_east` as `(x, y)` pairs. -/
def quad_offsets : List (Int × Int) := [(0, 0), (0, 1), (1, 0), (1, 1)]

/-- `submap_addrs`, lines 206-209: the four submap coordinates of the quad
    at `om_addr`. -/
def submap_addrs (om_addr : Tripoint) : List Tripoint :=
  quad_offsets.map (fun o =>
    ⟨(smOf om_addr).x + o.1, (smOf om_addr).y + o.2, (smOf om_addr).z⟩)

/-- The flag-inspection loop of `save_quad`, lines 211-224: walk the quad's
    addresses, reading each through `operator[]` (which default-inserts a
    null entry for an absent key), clearing `all_uniform` on a non-uniform
    chunk and setting `reverted_to_uniform` to `file_exists` on a uniform
    reverted chunk.  Returns the grown cache and the two flags. -/
def flagLoop (file_exists : Bool) :
    List Tripoint → Cache → Bool → Bool → Cache × Bool × Bool
  | [], c, au, rv => (c, au, rv)
  | a :: rest, c, au, rv =>
      let ix := c.index a
      match ix.1 with
      | none => flagLoop file_exists rest ix.2 au rv
      | some s =>
          if !s.is_uniform then flagLoop file_exists rest ix.2 false rv
          else if s.reverted then flagLoop file_exists rest ix.2 au file_exists
          else flagLoop file_exists rest ix.2 au rv

/-- The record-writing loop of `save_quad`, lines 245-275: skip addresses
    whose key is absent (`count == 0`) or whose pointer is null; for each
    remaining chunk emit a record `{version, coordinates, payload}` and, when
    `delete_after_save` is set, push its address onto the local eviction
    list.  Returns the threaded cache, the records in order, and the pushed
    addresses. -/
def writeLoop (sv : Int) (delete_after_save : Bool) :
    List Tripoint → Cache → Cache × List WriteRec × List Tripoint
  | [], c => (c, [], [])
  | a :: rest, c =>
      if !c.hasKey a then writeLoop sv delete_after_save rest c
      else
        let ix := c.index a
        match ix.1 with
        | none => writeLoop sv delete_after_save rest ix.2
        | some s =>
            let r : WriteRec := ⟨sv, a, s.payload⟩
            let w := writeLoop sv delete_after_save rest ix.2
            (w.1, r :: w.2.1,
              (if delete_after_save then [a] else []) ++ w.2.2)

/-- Result of one `save_quad` call: the cache after the call, the disk after
    the call, the addresses spliced onto the caller's eviction list, the
    records passed to `write_to_file` (empty when no write happened), and
    whether the call returned normally (`ok = false` models `write_to_file`
    raising on an I/O failure, in which case the caller's splice of the local
    eviction list never runs). -/
structure QuadOutcome where
  cache : Cache
  disk : Disk
  evict : List Tripoint
  written : List WriteRec
  ok : Bool
deriving Repr

/-- `mapbuffer::save_quad`, lines 200-283.  `wfail` is the I/O-failure
    oracle for this file's `write_to_file` call, which is outside the given
    source.  Modelled from the spec: `write_to_file` either commits the
    whole file or raises on an I/O failure leaving the previous disk state
    (spec section 7 treats I/O failures as raised faults caught at a
    boundary); a raise propagates out of `save_quad`, so the local eviction
    list is discarded before the caller's splice.  `assure_dir_exist` has no
    observable effect in this model and is omitted. -/
def save_quad (sv : Int) (filename : String) (om_addr : Tripoint) (c : Cache)
    (d : Disk) (delete_after_save : Bool) (wfail : Bool) : QuadOutcome :=
  let addrs := submap_addrs om_addr
  let file_exists := d.hasFile filename
  let fl := flagLoop file_exists addrs c true false
  let c1 := fl.1
  let all_uniform := fl.2.1
  let reverted_to_uniform := fl.2.2
  let evict0 : List Tripoint :=
    if all_uniform && delete_after_save then
      addrs.filter (fun a => c1.hasKey a && (c1.residentAt a).isSome)
    else []
  if all_uniform && !reverted_to_uniform then
    ⟨c1, d, evict0, [], true⟩
  else if wfail then
    ⟨c1, d, [], [], false⟩
  else
    let w := writeLoop sv delete_after_save addrs c1
    let d1 := d.writeFile filename w.2.1
    let d2 := if all_uniform && reverted_to_uniform then d1.removeFile filename
      else d1
    ⟨w.1, d2, evict0 ++ w.2.2, w.2.1, true⟩

/-! ## The save scheduler (`mapbuffer::save`) -/

/-- External collaborators of `mapbuffer::save`: the world save root,
    `map::inbounds` on an omt address (the reality-bubble membership
    predicate), the I/O-failure oracle for `write_to_file` by path (the
    helper itself is outside the given source), and the global
    `savegame_version`. -/
structure SaveEnv where
  worldBase : String
  inbounds : Tripoint → Bool
  wfails : String → Bool
  sv : Int

/-- One scheduled per-quad task, lines 162-175: the captured quad path, the
    quad's omt address, and the delete flag the lambda passes to
    `save_quad`. -/
structure SaveTask where
  quad_path : String
  om_addr : Tripoint
  effective_delete : Bool
deriving DecidableEq, Repr

/-- The task-building loop of `save`, lines 155-176: walk the cache entries
    in order, project each key to its quad's omt address, skip addresses
    already seen, and schedule one task per new quad with delete flag
    `delete_after_save || !inside_reality_bubble`. -/
def saveTasksGo (env : SaveEnv) (delete_after_save : Bool) :
    List Tripoint → List Tripoint → List SaveTask
  | [], _ => []
  | p :: rest, seen =>
      let om_addr := omtOf p
      if om_addr ∈ seen then saveTasksGo env delete_after_save rest seen
      else
        let dirname := find_dirname env.worldBase om_addr
        let quad_path := find_quad_path dirname om_addr
        let inside_reality_bubble := env.inbounds om_addr
        ⟨quad_path, om_addr, delete_after_save || !inside_reality_bubble⟩ ::
          saveTasksGo env delete_after_save rest (om_addr :: seen)

/-- The tasks `save` schedules for a cache state. -/
def saveTasks (env : SaveEnv) (c : Cache) (delete_after_save : Bool) :
    List SaveTask :=
  saveTasksGo env delete_after_save (c.map Prod.fst) []

/-- Joint outcome of running every scheduled task: each task's file is
    independent, so the concurrent tasks are modelled as a sequential fold;
    `evict` is the spliced union of the eviction lists of tasks that
    returned normally, and `ok` is false when some task raised. -/
structure RunOutcome where
  cache : Cache
  disk : Disk
  evict : List Tripoint
  ok : Bool
deriving Repr

/-- Run all scheduled tasks (every launched `std::async` task runs to
    completion whether or not a sibling fails). -/
def runTasks (env : SaveEnv) : List SaveTask → Cache → Disk → RunOutcome
  | [], c, d => ⟨c, d, [], true⟩
  | t :: ts, c, d =>
      let o := save_quad env.sv t.quad_path t.om_addr c d t.effective_delete
        (env.wfails t.quad_path)
      let r := runTasks env ts o.cache o.disk
      ⟨r.cache, r.disk, o.evict ++ r.evict, o.ok && r.ok⟩

/-- The eviction-application loop of `save`, lines 194-196: one
    `remove_submap` per collected address. -/
def applyRemovals : List Tripoint → Cache → Cache × List LogMsg
  | [], c => (c, [])
  | p :: rest, c =>
      let r := remove_submap c p
      let r2 := applyRemovals rest r.1
      (r2.1, r.2 ++ r2.2)

/-- Result of `mapbuffer::save`: final cache and disk, whether the call
    returned normally (`ok = false` models a stored task exception being
    rethrown by `fut.get()`, which propagates out of `save`), and the
    diagnostics of the eviction phase. -/
structure SaveOutcome where
  cache : Cache
  disk : Disk
  ok : Bool
  logs : List LogMsg
deriving Repr

/-- `mapbuffer::save`, lines 138-197: schedule one task per distinct quad,
    run them all, then — only if every `fut.get()` returned normally — apply
    the collected evictions through `remove_submap`.  If some task raised,
    the first failing `fut.get()` rethrows and the eviction loop is never
    reached. -/
def save (env : SaveEnv) (c : Cache) (d : Disk) (delete_after_save : Bool) :
    SaveOutcome :=
  let tasks := saveTasks env c delete_after_save
  let r := runTasks env tasks c d
  if r.ok then
    let ar := applyRemovals r.evict r.cache
    ⟨ar.1, r.disk, true, ar.2⟩
  else ⟨r.cache, r.disk, false, []⟩

/-! ## Loading (`unserialize_submaps` / `deserialize`) -/

/-- `submap::load` (outside the given source): modelled as recording the
    call — member name, member value, and the version argument — on the
    submap under construction. -/
def sm_load (sm : Submap) (name : String) (v : JVal) (version : Int) : Submap :=
  { sm with loadCalls := sm.loadCalls ++ [(name, v, version)] }

/-- First member of the object with the given name. -/
def lookupMember : JsonObject → String → Option JVal
  | [], _ => none
  | (n, v) :: rest, name =>
      if n = name then some v else lookupMember rest name

/-- `JsonObject::has_int`. -/
def has_int (obj : JsonObject) (name : String) : Bool :=
  match lookupMember obj name with
  | some (JVal.int _) => true
  | _ => false

/-- `JsonObject::get_int`. -/
def get_int (obj : JsonObject) (name : String) : Int :=
  match lookupMember obj name with
  | some (JVal.int v) => v
  | _ => 0

/-- Lines 330-334: `int version = 0;` then, if the record has an integer
    `version` member, its value — read before the member loop because member
    iteration order is undefined. -/
def recordVersion (obj : JsonObject) : Int :=
  if has_int obj "version" then get_int obj "version" else 0

/-- `coords_array.next_int()` three times, line 339. -/
def parseCoords (v : JVal) : Tripoint :=
  match v with
  | JVal.arr (a :: b :: g :: _) => ⟨a, b, g⟩
  | _ => ⟨0, 0, 0⟩

/-- The member loop of `deserialize`, lines 335-344: `coordinates` sets the
    record's coordinate, every other member (the `version` member included)
    is handed to `submap::load` together with the pre-read version. -/
def readLoop (version : Int) :
    JsonObject → Submap → Tripoint → Submap × Tripoint
  | [], sm, coords => (sm, coords)
  | (n, v) :: rest, sm, coords =>
      if n = "coordinates" then readLoop version rest sm (parseCoords v)
      else readLoop version rest (sm_load sm n v version) coords

/-- One record of `deserialize`: a fresh submap filled by the member loop,
    using the pre-read version, plus the parsed coordinate
    (default-constructed `⟨0,0,0⟩` when no `coordinates` member occurs). -/
def recordSubmap (obj : JsonObject) : Submap × Tripoint :=
  readLoop (recordVersion obj) obj {} ⟨0, 0, 0⟩

/-- `mapbuffer::deserialize`, lines 325-350: decode each record and insert
    it through `add_submap`; a rejected insertion (coordinate already
    loaded) is logged, not fatal. -/
def deserialize : List JsonObject → Cache → Cache × List LogMsg
  | [], c => (c, [])
  | obj :: rest, c =>
      let st := recordSubmap obj
      let a := add_submap c st.2 (some st.1)
      let r := deserialize rest a.2.1
      (r.1, (if a.1 then [] else [LogMsg.dupLoaded st.2]) ++ r.2)

/-- The terrain classification of one omt address, as this core consumes
    it: whether the terrain class entails synthesising uniform chunks, and
    the uniform chunk it fills in. -/
structure Oter where
  isUniform : Bool
  fill : Submap

/-- Modelled from the spec: `generate_uniform_omt` (outside the given
    source) — after a load, any chunk coordinate of the quad still absent
    from the cache whose externally-supplied terrain classification is
    uniform gets a fresh uniform chunk generated and inserted. -/
def generate_uniform_omt (ter : Oter) (corner : Tripoint) (c : Cache) : Cache :=
  if ter.isUniform then
    (List.map (fun o : Int × Int => (⟨corner.x + o.1, corner.y + o.2, corner.z⟩ : Tripoint))
        quad_offsets).foldl
      (fun acc a => if acc.hasKey a then acc else acc.setKey a (some ter.fill)) c
  else c

/-- External collaborators of the load path: the world save root, the
    locale-sensitive legacy integer formatter, and the terrain
    classification lookup (`overmap_buffer.ter`). -/
structure LoadEnv where
  worldBase : String
  localeFmt : Int → String
  ter : Tripoint → Oter

/-- The file system as far as loading observes it: JSON arrays of records
    by path. -/
abbrev ReadDisk := List (String × List JsonObject)

/-- Content of the file at `path`, if one exists. -/
def ReadDisk.lookupFile : ReadDisk → String → Option (List JsonObject)
  | [], _ => none
  | (q, f) :: rest, path =>
      if q = path then some f else ReadDisk.lookupFile rest path

/-- `file_exist`. -/
def ReadDisk.hasFile (rd : ReadDisk) (path : String) : Bool :=
  (rd.lookupFile path).isSome

/-- The path-resolution step of `unserialize_submaps`, lines 292-306: the
    canonical quad path, falling back to the legacy locale-formatted name
    only when no file exists at the canonical path and one exists at the
    legacy path. -/
def resolve_quad_path (env : LoadEnv) (rd : ReadDisk) (om_addr : Tripoint) :
    String :=
  let dirname := find_dirname env.worldBase om_addr
  let quad_path := find_quad_path dirname om_addr
  if !rd.hasFile quad_path then
    let legacy := legacy_quad_path env.localeFmt dirname om_addr
    if rd.hasFile legacy then legacy else quad_path
  else quad_path

/-- Result of `unserialize_submaps`: the cache afterwards, the returned
    submap pointer (`none` models `nullptr`), and the diagnostics. -/
structure LoadOutcome where
  cache : Cache
  result : Option Submap
  logs : List LogMsg
deriving Repr

/-- `mapbuffer::unserialize_submaps`, lines 287-323: resolve the quad path
    (with legacy fallback), return null when no file exists (the caller
    triggers generation), otherwise deserialize every record, synthesise the
    uniform submaps that were not serialized, and finally return the entry
    at `p` — logging an integrity error and returning null when the key is
    still absent. -/
def unserialize_submaps (env : LoadEnv) (rd : ReadDisk) (c : Cache)
    (p : Tripoint) : LoadOutcome :=
  let om_addr := omtOf p
  let quad_path := resolve_quad_path env rd om_addr
  match rd.lookupFile quad_path with
  | none => ⟨c, none, []⟩
  | some objs =>
      let de := deserialize objs c
      let c2 := generate_uniform_omt (env.ter om_addr) (smOf om_addr) de.1
      match c2.findVal p with
      | none => ⟨c2, none, de.2 ++ [LogMsg.integrity quad_path p]⟩
      | some v => ⟨c2, v, de.2⟩

/-! ## Basic facts about the cache operations -/

theorem findVal_append_some {c : Cache} (l : Cache) {q : Tripoint}
    {v : Option Submap} (h : c.findVal q = some v) :
    (c ++ l).findVal q = some v := by
  induction c with
  | nil => simp [Cache.findVal] at h
  | cons e rest ih =>
      obtain ⟨a, b⟩ := e
      rw [List.cons_append]
      by_cases he : a = q
      · simp [Cache.findVal, he] at h ⊢
        exact h
      · simp [Cache.findVal, he] at h ⊢
        exact ih h

theorem findVal_append_none {c : Cache} {q : Tripoint} (p : Tripoint)
    (h : c.findVal q = none) :
    (c ++ [(p, (none : Option Submap))]).findVal q =
      if p = q then some none else none := by
  induction c with
  | nil => simp [Cache.findVal]
  | cons e rest ih =>
      obtain ⟨a, b⟩ := e
      rw [List.cons_append]
      by_cases he : a = q
      · simp [Cache.findVal, he] at h
      · simp [Cache.findVal, he] at h ⊢
        exact ih h

theorem index_fst (c : Cache) (p : Tripoint) :
    (c.index p).1 = c.residentAt p := by
  unfold Cache.index Cache.residentAt
  cases h : c.findVal p <;> simp

theorem index_snd_of_hasKey {c : Cache} {p : Tripoint}
    (h : c.hasKey p = true) : (c.index p).2 = c := by
  unfold Cache.hasKey at h
  unfold Cache.index
  cases hv : c.findVal p
  · rw [hv] at h; simp at h
  · simp

theorem index_snd_resident (c : Cache) (p q : Tripoint) :
    ((c.index p).2).residentAt q = c.residentAt q := by
  unfold Cache.index
  cases hv : c.findVal p
  · simp only
    unfold Cache.residentAt
    cases hq : c.findVal q
    · rw [findVal_append_none p hq]
      by_cases hpq : p = q <;> simp [hpq]
    · rw [findVal_append_some _ hq]
  · simp

theorem index_snd_hasKey (c : Cache) (p q : Tripoint) :
    ((c.index p).2).hasKey q = true ↔ (c.hasKey q = true ∨ p = q) := by
  unfold Cache.index
  cases hv : c.findVal p
  · simp only
    unfold Cache.hasKey
    cases hq : c.findVal q
    · rw [findVal_append_none p hq]
      by_cases hpq : p = q <;> simp [hpq, hq]
    · rw [findVal_append_some _ hq]
      simp [hq]
  · simp only
    unfold Cache.hasKey
    constructor
    · intro h; exact Or.inl h
    · intro h
      rcases h with h | h
      · exact h
      · subst h; rw [hv]; rfl

theorem index_snd_findVal_self {c : Cache} {p : Tripoint}
    (h : c.findVal p = none) : ((c.index p).2).findVal p = some none := by
  unfold Cache.index
  rw [h]
  simp only
  rw [findVal_append_none p h]
  simp

theorem index_snd_findVal_preserve {c : Cache} (p : Tripoint) {q : Tripoint}
    {v : Option Submap} (h : c.findVal q = some v) :
    ((c.index p).2).findVal q = some v := by
  unfold Cache.index
  cases hv : c.findVal p
  · simp only
    exact findVal_append_some _ h
  · simpa using h

theorem setKey_findVal (c : Cache) (p : Tripoint) (v : Option Submap)
    (q : Tripoint) :
    (c.setKey p v).findVal q = if p = q then some v else c.findVal q := by
  induction c with
  | nil =>
      by_cases hpq : p = q <;> simp [Cache.setKey, Cache.findVal, hpq]
  | cons e rest ih =>
      obtain ⟨a, b⟩ := e
      by_cases hap : a = p
      · by_cases haq : a = q
        · have hpq : p = q := hap.symm.trans haq
          simp [Cache.setKey, Cache.findVal, hap, haq, hpq]
        · have hpq : ¬p = q := fun h => haq (hap.trans h)
          simp [Cache.setKey, Cache.findVal, hap, haq, hpq]
      · by_cases haq : a = q
        · have hpq : ¬p = q := fun h => hap (haq.trans h.symm)
          have hqp : ¬q = p := fun h => hpq h.symm
          simp [Cache.setKey, Cache.findVal, hap, haq, hpq, hqp]
        · simp [Cache.setKey, Cache.findVal, hap, haq, ih]

/-! ## Facts about the flag-inspection loop of `save_quad` -/

theorem flagLoop_cons (fe : Bool) (a : Tripoint) (rest : List Tripoint)
    (c : Cache) (au rv : Bool) :
    flagLoop fe (a :: rest) c au rv =
      match c.residentAt a with
      | none => flagLoop fe rest (c.index a).2 au rv
      | some s =>
          if !s.is_uniform then flagLoop fe rest (c.index a).2 false rv
          else if s.reverted then flagLoop fe rest (c.index a).2 au fe
          else flagLoop fe rest (c.index a).2 au rv := by
  simp only [flagLoop]
  rw [index_fst]

theorem flagLoop_resident (fe : Bool) (addrs : List Tripoint) (c : Cache)
    (au rv : Bool) (q : Tripoint) :
    ((flagLoop fe addrs c au rv).1).residentAt q = c.residentAt q := by
  induction addrs generalizing c au rv with
  | nil => rfl
  | cons a rest ih =>
      have step : ∀ au2 rv2,
          ((flagLoop fe rest (c.index a).2 au2 rv2).1).residentAt q =
            c.residentAt q := by
        intro au2 rv2
        rw [ih]; exact index_snd_resident c a q
      rw [flagLoop_cons]
      cases hs : c.residentAt a with
      | none => exact step au rv
      | some s =>
          cases hu : s.is_uniform with
          | false => simp only [hu]; simpa using step false rv
          | true =>
              cases hr : s.reverted with
              | true => simp only [hu, hr]; simpa using step au fe
              | false => simp only [hu, hr]; simpa using step au rv

theorem flagLoop_hasKey (fe : Bool) (addrs : List Tripoint) (c : Cache)
    (au rv : Bool) (q : Tripoint) :
    ((flagLoop fe addrs c au rv).1).hasKey q = true ↔
      (c.hasKey q = true ∨ q ∈ addrs) := by
  induction addrs generalizing c au rv with
  | nil => simp [flagLoop]
  | cons a rest ih =>
      have step : ∀ au2 rv2,
          ((flagLoop fe rest (c.index a).2 au2 rv2).1).hasKey q = true ↔
            (c.hasKey q = true ∨ q ∈ a :: rest) := by
        intro au2 rv2
        rw [ih, index_snd_hasKey]
        simp only [List.mem_cons]
        constructor
        · rintro ((h | h) | h)
          · exact Or.inl h
          · exact Or.inr (Or.inl h.symm)
          · exact Or.inr (Or.inr h)
        · rintro (h | h | h)
          · exact Or.inl (Or.inl h)
          · exact Or.inl (Or.inr h.symm)
          · exact Or.inr h
      rw [flagLoop_cons]
      cases hs : c.residentAt a with
      | none => exact step au rv
      | some s =>
          cases hu : s.is_uniform with
          | false => simp only [hu]; simpa using step false rv
          | true =>
              cases hr : s.reverted with
              | true => simp only [hu, hr]; simpa using step au fe
              | false => simp only [hu, hr]; simpa using step au rv

theorem flagLoop_findVal_preserve (fe : Bool) (addrs : List Tripoint)
    {c : Cache} (au rv : Bool) {q : Tripoint} {v : Option Submap}
    (h : c.findVal q = some v) :
    ((flagLoop fe addrs c au rv).1).findVal q = some v := by
  induction addrs generalizing c au rv with
  | nil => exact h
  | cons a rest ih =>
      rw [flagLoop_cons]
      have h2 := index_snd_findVal_preserve a h
      cases hs : c.residentAt a with
      | none => exact ih _ _ h2
      | some s =>
          cases hu : s.is_uniform with
          | false => simp only [hu]; simpa using ih _ _ h2
          | true =>
              cases hr : s.reverted with
              | true => simp only [hu, hr]; simpa using ih _ _ h2
              | false => simp only [hu, hr]; simpa using ih _ _ h2

theorem flagLoop_findVal_none_mem (fe : Bool) (addrs : List Tripoint)
    {c : Cache} (au rv : Bool) {q : Tripoint} (hq : q ∈ addrs)
    (h : c.findVal q = none) :
    ((flagLoop fe addrs c au rv).1).findVal q = some none := by
  induction addrs generalizing c au rv with
  | nil => cases hq
  | cons a rest ih =>
      rw [flagLoop_cons]
      by_cases hqa : q = a
      · subst hqa
        have hres : c.residentAt q = none := by
          unfold Cache.residentAt; rw [h]
        have h2 : ((c.index q).2).findVal q = some none :=
          index_snd_findVal_self h
        rw [hres]
        exact flagLoop_findVal_preserve fe rest _ _ h2
      · have hmem : q ∈ rest := by
          rcases List.mem_cons.mp hq with h1 | h1
          · exact absurd h1 hqa
          · exact h1
        have h2 : ((c.index a).2).findVal q = none ∨
            ((c.index a).2).findVal q = some none := by
          unfold Cache.index
          cases hv : c.findVal a
          · simp only
            rw [findVal_append_none a h]
            have : ¬a = q := fun hh => hqa hh.symm
            simp [this]
          · simp [h]
        have step : ∀ au2 rv2,
            ((flagLoop fe rest (c.index a).2 au2 rv2).1).findVal q =
              some none := by
          intro au2 rv2
          rcases h2 with h2 | h2
          · exact ih _ _ hmem h2
          · exact flagLoop_findVal_preserve fe rest _ _ h2
        cases hs : c.residentAt a with
        | none => exact step au rv
        | some s =>
            cases hu : s.is_uniform with
            | false => simp only [hu]; simpa using step false rv
            | true =>
                cases hr : s.reverted with
                | true => simp only [hu, hr]; simpa using step au fe
                | false => simp only [hu, hr]; simpa using step au rv

theorem flagLoop_au (fe : Bool) (addrs : List Tripoint) (c : Cache)
    (rv : Bool)
    (h : ∀ a ∈ addrs, (c.residentAt a).all (fun s => s.is_uniform) = true) :
    (flagLoop fe addrs c true rv).2.1 = true := by
  induction addrs generalizing c rv with
  | nil => rfl
  | cons a rest ih =>
      have hrest : ∀ x ∈ rest,
          (((c.index a).2).residentAt x).all (fun s => s.is_uniform) = true := by
        intro x hx
        rw [index_snd_resident]
        exact h x (List.mem_cons_of_mem _ hx)
      rw [flagLoop_cons]
      cases hs : c.residentAt a with
      | none => exact ih _ _ hrest
      | some s =>
          have hu : s.is_uniform = true := by
            have := h a (List.mem_cons_self _ _)
            rw [hs] at this
            simpa using this
          cases hr : s.reverted with
          | true => simp only [hu, hr]; simpa using ih _ _ hrest
          | false => simp only [hu, hr]; simpa using ih _ _ hrest

theorem flagLoop_rv_sticky (addrs : List Tripoint) (c : Cache) (au : Bool) :
    (flagLoop true addrs c au true).2.2 = true := by
  induction addrs generalizing c au with
  | nil => rfl
  | cons a rest ih =>
      rw [flagLoop_cons]
      cases hs : c.residentAt a with
      | none => exact ih _ _
      | some s =>
          cases hu : s.is_uniform with
          | false => simp only [hu]; simpa using ih _ _
          | true =>
              cases hr : s.reverted with
              | true => simp only [hu, hr]; simpa using ih _ _
              | false => simp only [hu, hr]; simpa using ih _ _

theorem flagLoop_rv_true (addrs : List Tripoint) (c : Cache) (au rv : Bool)
    (hall : ∀ a ∈ addrs, (c.residentAt a).all (fun s => s.is_uniform) = true)
    (hrev : ∃ a ∈ addrs, (c.residentAt a).any (fun s => s.reverted) = true) :
    (flagLoop true addrs c au rv).2.2 = true := by
  induction addrs generalizing c au rv with
  | nil => obtain ⟨a, ha, _⟩ := hrev; cases ha
  | cons a rest ih =>
      have hallrest : ∀ x ∈ rest,
          (((c.index a).2).residentAt x).all (fun s => s.is_uniform) = true := by
        intro x hx
        rw [index_snd_resident]
        exact hall x (List.mem_cons_of_mem _ hx)
      have hrevrest :
          (∃ x ∈ rest, (c.residentAt x).any (fun s => s.reverted) = true) →
          ∃ x ∈ rest,
            (((c.index a).2).residentAt x).any (fun s => s.reverted) = true := by
        rintro ⟨x, hx, hxr⟩
        exact ⟨x, hx, by rw [index_snd_resident]; exact hxr⟩
      rw [flagLoop_cons]
      cases hs : c.residentAt a with
      | none =>
          obtain ⟨x, hx, hxr⟩ := hrev
          have hxrest : x ∈ rest := by
            rcases List.mem_cons.mp hx with h1 | h1
            · rw [h1, hs] at hxr; simp [Option.any] at hxr
            · exact h1
          exact ih _ _ _ hallrest (hrevrest ⟨x, hxrest, hxr⟩)
      | some s =>
          have hu : s.is_uniform = true := by
            have := hall a (List.mem_cons_self _ _)
            rw [hs] at this
            simpa using this
          cases hr : s.reverted with
          | true =>
              simp only [hu, hr]
              simpa using flagLoop_rv_sticky rest _ au
          | false =>
              obtain ⟨x, hx, hxr⟩ := hrev
              have hxrest : x ∈ rest := by
                rcases List.mem_cons.mp hx with h1 | h1
                · rw [h1, hs] at hxr
                  simp [Option.any, hr] at hxr
                · exact h1
              simp only [hu, hr]
              simpa using ih _ _ _ hallrest (hrevrest ⟨x, hxrest, hxr⟩)

theorem flagLoop_rv_stays_false (addrs : List Tripoint) (c : Cache)
    (au : Bool) : (flagLoop false addrs c au false).2.2 = false := by
  induction addrs generalizing c au with
  | nil => rfl
  | cons a rest ih =>
      rw [flagLoop_cons]
      cases hs : c.residentAt a with
      | none => exact ih _ _
      | some s =>
          cases hu : s.is_uniform with
          | false => simp only [hu]; simpa using ih _ _
          | true =>
              cases hr : s.reverted with
              | true => simp only [hu, hr]; simpa using ih _ _
              | false => simp only [hu, hr]; simpa using ih _ _

/-! ## Facts about the record-writing loop of `save_quad` -/

theorem writeLoop_cons (sv : Int) (das : Bool) (a : Tripoint)
    (rest : List Tripoint) (c : Cache) :
    writeLoop sv das (a :: rest) c =
      if !c.hasKey a then writeLoop sv das rest c
      else
        match c.residentAt a with
        | none => writeLoop sv das rest (c.index a).2
        | some s =>
            let w := writeLoop sv das rest (c.index a).2
            (w.1, (⟨sv, a, s.payload⟩ : WriteRec) :: w.2.1,
              (if das then [a] else []) ++ w.2.2) := by
  simp only [writeLoop]
  rw [index_fst]

theorem writeLoop_cache (sv : Int) (das : Bool) (addrs : List Tripoint)
    (c : Cache) : (writeLoop sv das addrs c).1 = c := by
  induction addrs generalizing c with
  | nil => rfl
  | cons a rest ih =>
      rw [writeLoop_cons]
      cases hk : c.hasKey a with
      | false => simp only [hk]; simpa using ih c
      | true =>
          have hix : (c.index a).2 = c := index_snd_of_hasKey hk
          simp only [hk, Bool.not_true]
          cases hs : c.residentAt a with
          | none => simpa [hix] using ih c
          | some s => simpa [hix] using ih c

theorem writeLoop_written_resident (sv : Int) (das : Bool)
    (addrs : List Tripoint) (c : Cache) (r : WriteRec)
    (h : r ∈ (writeLoop sv das addrs c).2.1) :
    (c.residentAt r.coords).isSome = true := by
  induction addrs generalizing c with
  | nil => cases h
  | cons a rest ih =>
      rw [writeLoop_cons] at h
      cases hk : c.hasKey a with
      | false =>
          rw [hk] at h
          exact ih c (by simpa using h)
      | true =>
          have hix : (c.index a).2 = c := index_snd_of_hasKey hk
          rw [hk] at h
          simp only [Bool.not_true] at h
          cases hs : c.residentAt a with
          | none =>
              rw [hs] at h
              rw [hix] at h
              exact ih c (by simpa using h)
          | some s =>
              rw [hs] at h
              rw [hix] at h
              dsimp only at h
              rcases List.mem_cons.mp h with h1 | h1
              · rw [h1]
                show (c.residentAt a).isSome = true
                rw [hs]
                rfl
              · exact ih c h1

/-! ## Facts about disk operations -/

theorem lookupFile_removeFile_self (d : Disk) (path : String) :
    (d.removeFile path).lookupFile path = none := by
  induction d with
  | nil => rfl
  | cons e rest ih =>
      obtain ⟨q, f⟩ := e
      by_cases hq : q = path
      · simp [Disk.removeFile, hq] at ih ⊢
        exact ih
      · simp [Disk.removeFile, Disk.lookupFile, hq] at ih ⊢
        exact ih

theorem hasFile_removeFile_self (d : Disk) (path : String) :
    (d.removeFile path).hasFile path = false := by
  unfold Disk.hasFile
  rw [lookupFile_removeFile_self]
  rfl

/-! ## Claim C3: insert rejection is atomic -/

/-- C3: for a coordinate already resident in the cache, `add_submap` returns
    failure, leaves the cache (and hence the chunk already stored at that
    coordinate) unchanged, and leaves ownership of the rejected chunk with
    the caller: the caller's pointer still holds it, so it is not
    destroyed. -/
theorem add_submap_rejects_resident (c : Cache) (p : Tripoint) (s : Submap)
    (sm : Option Submap) (h : c.residentAt p = some s) :
    add_submap c p sm = (false, c, sm) := by
  have hk : c.hasKey p = true := by
    unfold Cache.residentAt at h
    unfold Cache.hasKey
    cases hv : c.findVal p
    · rw [hv] at h; cases h
    · rfl
  unfold add_submap
  rw [hk]
  rfl

/-- Witness for C3 at a concrete cache. -/
theorem add_submap_rejects_resident_witness :
    add_submap [((⟨3, 4, 5⟩ : Tripoint), some ({ payload := 7 } : Submap))]
        ⟨3, 4, 5⟩ (some { payload := 9 }) =
      (false, [((⟨3, 4, 5⟩ : Tripoint), some ({ payload := 7 } : Submap))],
        some { payload := 9 }) :=
  add_submap_rejects_resident _ _ { payload := 7 } _ (by decide)

/-! ## Claim C1: the tombstone case deletes the stale file -/

/-- C1: if the quad's file exists on disk, every chunk of the quad that is
    resident is uniform, and at least one resident chunk is flagged
    reverted, then `save_quad` (with the write succeeding) leaves no file
    for the quad on disk: the stale file is deleted. -/
theorem save_quad_tombstone (sv : Int) (filename : String)
    (om_addr : Tripoint) (c : Cache) (d : Disk) (delete_after_save : Bool)
    (hf : d.hasFile filename = true)
    (hall : ∀ a ∈ submap_addrs om_addr,
      (c.residentAt a).all (fun s => s.is_uniform) = true)
    (hrev : ∃ a ∈ submap_addrs om_addr,
      (c.residentAt a).any (fun s => s.reverted) = true) :
    (save_quad sv filename om_addr c d delete_after_save false).disk.hasFile
      filename = false := by
  have hau : (flagLoop (d.hasFile filename) (submap_addrs om_addr) c true
      false).2.1 = true := flagLoop_au _ _ _ _ hall
  have hrv : (flagLoop (d.hasFile filename) (submap_addrs om_addr) c true
      false).2.2 = true := by
    rw [hf]; exact flagLoop_rv_true _ _ _ _ hall hrev
  unfold save_quad
  simp only [hau, hrv, Bool.not_true, Bool.and_false, Bool.false_eq_true,
    if_false, Bool.and_true, if_true]
  exact hasFile_removeFile_self _ _

/-- Witness for C1: a quad of four uniform chunks, one of them reverted,
    with a stale file on disk. -/
theorem save_quad_tombstone_witness :
    (save_quad 33 "f.map" ⟨0, 0, 0⟩
        [((⟨0, 0, 0⟩ : Tripoint), some { is_uniform := true, payload := 1 }),
         ((⟨0, 1, 0⟩ : Tripoint), some { is_uniform := true, payload := 1 }),
         ((⟨1, 0, 0⟩ : Tripoint),
           some { is_uniform := true, reverted := true, payload := 2 }),
         ((⟨1, 1, 0⟩ : Tripoint), some { is_uniform := true, payload := 1 })]
        [("f.map", [⟨30, ⟨0, 0, 0⟩, 9⟩])] false false).disk.hasFile "f.map" =
      false :=
  save_quad_tombstone 33 "f.map" ⟨0, 0, 0⟩ _ _ false (by decide) (by decide)
    (by decide)

/-! ## Claim C2: the uniform-skip case -/

/-- C2 as stated is refuted: a quad whose resident chunks are all uniform
    and whose file does not exist, saved with the delete flag clear, still
    mutates the chunk cache — `operator[]` in the flag-inspection loop
    default-inserts a null entry for each absent coordinate of the quad, a
    side effect beyond the eviction list. -/
theorem save_quad_uniform_skip_cex :
    (∀ a ∈ submap_addrs ⟨0, 0, 0⟩,
      (Cache.residentAt
          [((⟨0, 0, 0⟩ : Tripoint),
            some ({ is_uniform := true, payload := 1 } : Submap))] a).all
        (fun s => s.is_uniform) = true) ∧
    (Disk.hasFile [] "f.map" = false) ∧
    (save_quad 33 "f.map" ⟨0, 0, 0⟩
        [((⟨0, 0, 0⟩ : Tripoint),
          some ({ is_uniform := true, payload := 1 } : Submap))]
        [] false false).cache ≠
      [((⟨0, 0, 0⟩ : Tripoint),
        some ({ is_uniform := true, payload := 1 } : Submap))] := by
  decide

/-- C2 amended: for a quad whose resident chunks are all uniform and with
    no file on disk, `save_quad` writes nothing, deletes nothing, returns
    normally, and its only effects are (a) when the delete flag is set,
    adding exactly the quad's resident chunks to the eviction list, and
    (b) default-inserting a null entry for each coordinate of the quad that
    was absent from the cache (the resident chunks themselves are
    untouched). -/
theorem save_quad_uniform_skip (sv : Int) (filename : String)
    (om_addr : Tripoint) (c : Cache) (d : Disk) (delete_after_save : Bool)
    (wfail : Bool)
    (hall : ∀ a ∈ submap_addrs om_addr,
      (c.residentAt a).all (fun s => s.is_uniform) = true)
    (hnof : d.hasFile filename = false) :
    (save_quad sv filename om_addr c d delete_after_save wfail).disk = d ∧
    (save_quad sv filename om_addr c d delete_after_save wfail).written =
      [] ∧
    (save_quad sv filename om_addr c d delete_after_save wfail).ok = true ∧
    (save_quad sv filename om_addr c d delete_after_save wfail).evict =
      (if delete_after_save then
        (submap_addrs om_addr).filter (fun a => (c.residentAt a).isSome)
      else []) ∧
    (∀ q, (save_quad sv filename om_addr c d delete_after_save
      wfail).cache.residentAt q = c.residentAt q) ∧
    (∀ q, (save_quad sv filename om_addr c d delete_after_save
        wfail).cache.hasKey q = true ↔
      (c.hasKey q = true ∨ q ∈ submap_addrs om_addr)) := by
  have hau : (flagLoop (d.hasFile filename) (submap_addrs om_addr) c true
      false).2.1 = true := flagLoop_au _ _ _ _ hall
  have hrv : (flagLoop (d.hasFile filename) (submap_addrs om_addr) c true
      false).2.2 = false := by
    rw [hnof]; exact flagLoop_rv_stays_false _ _ _
  have hfil : (submap_addrs om_addr).filter
      (fun a =>
        ((flagLoop (d.hasFile filename) (submap_addrs om_addr) c true
          false).1).hasKey a &&
        (((flagLoop (d.hasFile filename) (submap_addrs om_addr) c true
          false).1).residentAt a).isSome) =
      (submap_addrs om_addr).filter (fun a => (c.residentAt a).isSome) := by
    apply List.filter_congr
    intro a ha
    have hk : ((flagLoop (d.hasFile filename) (submap_addrs om_addr) c true
        false).1).hasKey a = true :=
      (flagLoop_hasKey _ _ _ _ _ _).mpr (Or.inr ha)
    rw [hk, flagLoop_resident]
    exact Bool.true_and _
  have hsq : save_quad sv filename om_addr c d delete_after_save wfail =
      ⟨(flagLoop (d.hasFile filename) (submap_addrs om_addr) c true false).1,
        d,
        (if delete_after_save then
          (submap_addrs om_addr).filter (fun a => (c.residentAt a).isSome)
        else []), [], true⟩ := by
    unfold save_quad
    simp only [hau, hrv, Bool.not_false, Bool.and_true, Bool.true_and,
      if_true]
    cases delete_after_save with
    | false => simp
    | true => simp [hfil]
  rw [hsq]
  refine ⟨rfl, rfl, rfl, rfl, ?_, ?_⟩
  · intro q; exact flagLoop_resident _ _ _ _ _ _
  · intro q; exact flagLoop_hasKey _ _ _ _ _ _

/-- Witness for the amended C2: one resident uniform chunk, delete flag
    set. -/
theorem save_quad_uniform_skip_witness :
    (save_quad 33 "f.map" ⟨0, 0, 0⟩
        [((⟨0, 0, 0⟩ : Tripoint),
          some ({ is_uniform := true, payload := 1 } : Submap))]
        [] true false).evict = [⟨0, 0, 0⟩] ∧
    (save_quad 33 "f.map" ⟨0, 0, 0⟩
        [((⟨0, 0, 0⟩ : Tripoint),
          some ({ is_uniform := true, payload := 1 } : Submap))]
        [] true false).disk = [] := by
  have h := save_quad_uniform_skip 33 "f.map" ⟨0, 0, 0⟩
    [((⟨0, 0, 0⟩ : Tripoint),
      some ({ is_uniform := true, payload := 1 } : Submap))]
    [] true false (by decide) (by decide)
  refine ⟨?_, h.1⟩
  rw [h.2.2.2.1]
  decide

/-! ## Claim C9: save_quad default-inserts null chunks for absent quad
    coordinates -/

/-- C9: a coordinate of the quad absent from the cache before `save_quad`
    is present afterwards, mapped to a null chunk, and no record is written
    for it. -/
theorem save_quad_inserts_null (sv : Int) (filename : String)
    (om_addr : Tripoint) (c : Cache) (d : Disk) (delete_after_save : Bool)
    (wfail : Bool) (p : Tripoint) (hp : p ∈ submap_addrs om_addr)
    (habs : c.findVal p = none) :
    (save_quad sv filename om_addr c d delete_after_save
      wfail).cache.findVal p = some none ∧
    ∀ r ∈ (save_quad sv filename om_addr c d delete_after_save
      wfail).written, r.coords ≠ p := by
  have hc1 : ((flagLoop (d.hasFile filename) (submap_addrs om_addr) c true
      false).1).findVal p = some none :=
    flagLoop_findVal_none_mem _ _ _ _ hp habs
  have hres : ((flagLoop (d.hasFile filename) (submap_addrs om_addr) c true
      false).1).residentAt p = none := by
    unfold Cache.residentAt
    rw [hc1]
  constructor
  · unfold save_quad
    dsimp only
    split
    · exact hc1
    · split
      · exact hc1
      · rw [writeLoop_cache]
        exact hc1
  · unfold save_quad
    dsimp only
    split
    · intro r hr; cases hr
    · split
      · intro r hr; cases hr
      · intro r hr heq
        have hsome := writeLoop_written_resident _ _ _ _ r hr
        rw [heq, hres] at hsome
        simp at hsome

/-- Witness for C9: the quad of omt `(0,0,0)` with an empty cache. -/
theorem save_quad_inserts_null_witness :
    (save_quad 33 "f.map" ⟨0, 0, 0⟩ [] [] false false).cache.findVal
      ⟨0, 1, 0⟩ = some none ∧
    ∀ r ∈ (save_quad 33 "f.map" ⟨0, 0, 0⟩ [] [] false false).written,
      r.coords ≠ ⟨0, 1, 0⟩ :=
  save_quad_inserts_null 33 "f.map" ⟨0, 0, 0⟩ [] [] false false ⟨0, 1, 0⟩
    (by decide) (by decide)

/-! ## Claim C5: the delete flag passed to each per-quad save -/

theorem saveTasksGo_flag (env : SaveEnv) (das : Bool) (ps : List Tripoint)
    (seen : List Tripoint) (t : SaveTask)
    (h : t ∈ saveTasksGo env das ps seen) :
    t.effective_delete = (das || !env.inbounds t.om_addr) := by
  induction ps generalizing seen with
  | nil => cases h
  | cons p rest ih =>
      unfold saveTasksGo at h
      by_cases hm : omtOf p ∈ seen
      · rw [if_pos hm] at h
        exact ih _ h
      · rw [if_neg hm] at h
        dsimp only at h
        rcases List.mem_cons.mp h with h1 | h1
        · subst h1
          rfl
        · exact ih _ h1

/-- C5: every task scheduled by `save` carries the delete flag
    `caller's flag || quad outside the reality bubble`, so a quad outside
    the active working set is saved with deletion-after-save forced
    regardless of the caller's flag. -/
theorem save_task_delete_flag (env : SaveEnv) (c : Cache) (das : Bool)
    (t : SaveTask) (h : t ∈ saveTasks env c das) :
    t.effective_delete = (das || !env.inbounds t.om_addr) :=
  saveTasksGo_flag env das _ _ t h

/-- Concrete scheduler environment: quad `(0,0,0)` is outside the reality
    bubble and no write fails. -/
def envW : SaveEnv := ⟨"W", fun q => decide (q.x = 9), fun _ => false, 33⟩

/-- Witness for C5: with the caller's flag clear, the task for the
    out-of-bubble quad `(0,0,0)` still has its delete flag set. -/
theorem save_task_delete_flag_witness :
    SaveTask.effective_delete
        ⟨"W/maps/0.0.0/0.0.0.map", ⟨0, 0, 0⟩, true⟩ =
      (false || !envW.inbounds
        (SaveTask.om_addr ⟨"W/maps/0.0.0/0.0.0.map", ⟨0, 0, 0⟩, true⟩)) :=
  save_task_delete_flag envW
    [((⟨0, 0, 0⟩ : Tripoint), some ({ payload := 1 } : Submap))] false _
    (by decide)

/-! ## Claim C4: what actually happens when one quad's write fails -/

theorem save_quad_resident (sv : Int) (filename : String)
    (om_addr : Tripoint) (c : Cache) (d : Disk) (das wf : Bool)
    (q : Tripoint) :
    (save_quad sv filename om_addr c d das wf).cache.residentAt q =
      c.residentAt q := by
  unfold save_quad
  dsimp only
  split
  · exact flagLoop_resident _ _ _ _ _ _
  · split
    · exact flagLoop_resident _ _ _ _ _ _
    · rw [writeLoop_cache]
      exact flagLoop_resident _ _ _ _ _ _

theorem runTasks_resident (env : SaveEnv) (ts : List SaveTask) (c : Cache)
    (d : Disk) (q : Tripoint) :
    (runTasks env ts c d).cache.residentAt q = c.residentAt q := by
  induction ts generalizing c d with
  | nil => rfl
  | cons t rest ih =>
      unfold runTasks
      dsimp only
      rw [ih, save_quad_resident]

/-- A chunk cache and failure oracle on which the write of quad `(0,0,0)`
    raises while the write of quad `(2,2,0)` succeeds. -/
def envF : SaveEnv :=
  ⟨"W", fun _ => false, fun s => decide (s = "W/maps/0.0.0/0.0.0.map"), 33⟩

/-- Two non-uniform chunks in two different quads. -/
def cacheF : Cache :=
  [((⟨0, 0, 0⟩ : Tripoint),
    some { is_uniform := false, payload := 3 }),
   ((⟨4, 4, 0⟩ : Tripoint),
    some { is_uniform := false, payload := 4 })]

/-- C4 as stated is refuted: when the quad `(0,0,0)` write raises,
    `save` does not complete normally (`ok = false`: the stored exception is
    rethrown by `fut.get()` and propagates out of `save`), even though the
    sibling quad `(2,2,0)` was written; and with delete-after-save set, the
    successfully written sibling's chunk is still resident afterwards,
    because the abort skips the whole eviction phase. -/
theorem save_failure_cex :
    (save envF cacheF [] true).ok = false ∧
    Disk.hasFile (save envF cacheF [] true).disk
      "W/maps/0.0.0/2.2.0.map" = true ∧
    (save envF cacheF [] true).cache.residentAt ⟨0, 0, 0⟩ =
      some { is_uniform := false, payload := 3 } ∧
    (save envF cacheF [] true).cache.residentAt ⟨4, 4, 0⟩ =
      some { is_uniform := false, payload := 4 } := by
  decide

/-- C4 amended: when some quad's write raises, the failure is not logged
    and `save` does not return normally — the exception propagates after
    every launched task has run (sibling quads' disk writes are kept), and
    the eviction phase is skipped entirely, so the failed quad's chunks —
    and every other chunk — remain resident. -/
theorem save_failure_aborts (env : SaveEnv) (c : Cache) (d : Disk)
    (das : Bool)
    (h : (runTasks env (saveTasks env c das) c d).ok = false) :
    (save env c d das).ok = false ∧
    (save env c d das).disk =
      (runTasks env (saveTasks env c das) c d).disk ∧
    (save env c d das).logs = [] ∧
    ∀ q, (save env c d das).cache.residentAt q = c.residentAt q := by
  unfold save
  dsimp only
  rw [if_neg (by simp [h] :
    ¬((runTasks env (saveTasks env c das) c d).ok = true))]
  exact ⟨rfl, rfl, rfl, fun q => runTasks_resident _ _ _ _ _⟩

/-- Witness for the amended C4 on the concrete failing run. -/
theorem save_failure_aborts_witness :
    (save envF cacheF [] true).ok = false ∧
    (save envF cacheF [] true).disk =
      (runTasks envF (saveTasks envF cacheF true) cacheF []).disk ∧
    (save envF cacheF [] true).logs = [] ∧
    ∀ q, (save envF cacheF [] true).cache.residentAt q =
      cacheF.residentAt q :=
  save_failure_aborts envF cacheF [] true (by decide)

/-! ## Claim C7: legacy filename fallback -/

/-- C7: the canonical quad path is used whenever a file exists there; the
    legacy locale-formatted name is tried only when the canonical path is
    absent, and a region file existing only under the legacy name is then
    resolved (and found) under the legacy path. -/
theorem legacy_fallback (env : LoadEnv) (rd : ReadDisk) (om_addr : Tripoint) :
    (rd.hasFile
        (find_quad_path (find_dirname env.worldBase om_addr) om_addr) =
        true →
      resolve_quad_path env rd om_addr =
        find_quad_path (find_dirname env.worldBase om_addr) om_addr) ∧
    (rd.hasFile
        (find_quad_path (find_dirname env.worldBase om_addr) om_addr) =
        false →
      rd.hasFile (legacy_quad_path env.localeFmt
        (find_dirname env.worldBase om_addr) om_addr) = true →
      resolve_quad_path env rd om_addr =
        legacy_quad_path env.localeFmt
          (find_dirname env.worldBase om_addr) om_addr ∧
      (rd.lookupFile (resolve_quad_path env rd om_addr)).isSome = true) := by
  constructor
  · intro hc
    unfold resolve_quad_path
    simp [hc]
  · intro hc hl
    have hres : resolve_quad_path env rd om_addr =
        legacy_quad_path env.localeFmt
          (find_dirname env.worldBase om_addr) om_addr := by
      unfold resolve_quad_path
      simp [hc, hl]
    refine ⟨hres, ?_⟩
    rw [hres]
    exact hl

/-- Load environment whose legacy formatter differs from the canonical
    one. -/
def lenvW : LoadEnv :=
  ⟨"W", fun i => "L" ++ toString i, fun _ => ⟨true, { payload := 5 }⟩⟩

/-- A disk holding the quad file only under the legacy name. -/
def rdLegacy : ReadDisk :=
  [("W/maps/0.0.0/L0.L0.L0.map",
    [[("version", JVal.int 33), ("coordinates", JVal.arr [0, 0, 0])]])]

/-- Witness for C7: the canonical path is absent, the legacy one present,
    and resolution lands on the legacy path with the file found there. -/
theorem legacy_fallback_witness :
    resolve_quad_path lenvW rdLegacy ⟨0, 0, 0⟩ =
      legacy_quad_path lenvW.localeFmt
        (find_dirname lenvW.worldBase ⟨0, 0, 0⟩) ⟨0, 0, 0⟩ ∧
    (rdLegacy.lookupFile (resolve_quad_path lenvW rdLegacy ⟨0, 0, 0⟩)).isSome =
      true :=
  (legacy_fallback lenvW rdLegacy ⟨0, 0, 0⟩).2 (by decide) (by decide)

/-! ## Claim C8: the version member is read before any payload member -/

theorem readLoop_all (V : Int) (obj : JsonObject) (sm : Submap)
    (t : Tripoint) (f : String × JVal × Int → Bool)
    (hs : sm.loadCalls.all f = true)
    (hv : ∀ n val, f (n, val, V) = true) :
    ((readLoop V obj sm t).1).loadCalls.all f = true := by
  induction obj generalizing sm t with
  | nil => exact hs
  | cons m rest ih =>
      obtain ⟨n, v⟩ := m
      unfold readLoop
      by_cases hn : n = "coordinates"
      · rw [if_pos hn]
        exact ih sm _ hs
      · rw [if_neg hn]
        apply ih
        unfold sm_load
        dsimp only
        rw [List.all_append]
        simp [hs, hv]

/-- C8: whatever the position of the `version` member among the record's
    members, its value is the version `deserialize` determines for the
    record, and every `submap::load` call for the record's members is made
    with that value. -/
theorem version_read_first (obj : JsonObject) (v : Int)
    (h : lookupMember obj "version" = some (JVal.int v)) :
    recordVersion obj = v ∧
    ((recordSubmap obj).1).loadCalls.all
      (fun e => decide (e.2.2 = v)) = true := by
  have hv : recordVersion obj = v := by
    unfold recordVersion has_int get_int
    rw [h]
    simp
  refine ⟨hv, ?_⟩
  unfold recordSubmap
  rw [hv]
  exact readLoop_all v obj {} _ _ rfl (fun n val => by simp)

/-- A record whose `version` member sits between payload members. -/
def objV : JsonObject :=
  [("terrain", JVal.payload 7), ("version", JVal.int 33),
   ("coordinates", JVal.arr [1, 2, 3]), ("items", JVal.payload 8)]

/-- Witness for C8 on a record with the version member in the middle. -/
theorem version_read_first_witness :
    recordVersion objV = 33 ∧
    ((recordSubmap objV).1).loadCalls.all
      (fun e => decide (e.2.2 = (33 : Int))) = true :=
  version_read_first objV 33 (by decide)

/-! ## Claim C10: a record with no version member decodes as version 0 -/

/-- C10: a chunk record with no `version` member is decoded with the
    version defaulting to 0 — every `submap::load` call for its members is
    made with version 0, and decoding proceeds normally. -/
theorem missing_version_defaults_zero (obj : JsonObject)
    (h : lookupMember obj "version" = none) :
    recordVersion obj = 0 ∧
    ((recordSubmap obj).1).loadCalls.all
      (fun e => decide (e.2.2 = (0 : Int))) = true := by
  have hv : recordVersion obj = 0 := by
    unfold recordVersion has_int
    rw [h]
    simp
  refine ⟨hv, ?_⟩
  unfold recordSubmap
  rw [hv]
  exact readLoop_all 0 obj {} _ _ rfl (fun n val => by simp)

/-- A record with payload and coordinates but no version member. -/
def objNoV : JsonObject :=
  [("coordinates", JVal.arr [1, 2, 3]), ("terrain", JVal.payload 7)]

/-- Witness for C10. -/
theorem missing_version_defaults_zero_witness :
    recordVersion objNoV = 0 ∧
    ((recordSubmap objNoV).1).loadCalls.all
      (fun e => decide (e.2.2 = (0 : Int))) = true :=
  missing_version_defaults_zero objNoV (by decide)

/-! ## Claim C6: load integrity after a successful read -/

theorem setKey_some_not_null {c : Cache} {q : Tripoint} (x : Tripoint)
    (s : Submap) (h : c.findVal q ≠ some none) :
    (c.setKey x (some s)).findVal q ≠ some none := by
  rw [setKey_findVal]
  by_cases hx : x = q
  · simp [hx]
  · simpa [hx] using h

theorem add_submap_some_not_null (c : Cache) (x : Tripoint) (s : Submap)
    (q : Tripoint) (h : c.findVal q ≠ some none) :
    ((add_submap c x (some s)).2.1).findVal q ≠ some none := by
  unfold add_submap
  by_cases hk : c.hasKey x = true
  · simpa [hk] using h
  · simp only [hk, Bool.false_eq_true, if_false]
    exact setKey_some_not_null x s h

theorem deserialize_not_null (objs : List JsonObject) (c : Cache)
    (p : Tripoint) (h : c.findVal p ≠ some none) :
    ((deserialize objs c).1).findVal p ≠ some none := by
  induction objs generalizing c with
  | nil => exact h
  | cons obj rest ih =>
      unfold deserialize
      dsimp only
      exact ih _ (add_submap_some_not_null c _ _ p h)

theorem foldl_fill_not_null (fill : Submap) (l : List Tripoint) (c : Cache)
    (q : Tripoint) (h : c.findVal q ≠ some none) :
    ((l.foldl
        (fun acc a => if acc.hasKey a then acc else acc.setKey a (some fill))
        c).findVal q) ≠ some none := by
  induction l generalizing c with
  | nil => exact h
  | cons a rest ih =>
      rw [List.foldl_cons]
      apply ih
      by_cases hk : c.hasKey a = true
      · simpa [hk] using h
      · simp only [hk, Bool.false_eq_true, if_false]
        exact setKey_some_not_null a fill h

theorem generate_not_null (ter : Oter) (corner : Tripoint) (c : Cache)
    (q : Tripoint) (h : c.findVal q ≠ some none) :
    ((generate_uniform_omt ter corner c).findVal q) ≠ some none := by
  unfold generate_uniform_omt
  by_cases hu : ter.isUniform = true
  · rw [if_pos hu]
    exact foldl_fill_not_null _ _ _ _ h
  · rw [if_neg hu]
    exact h

/-- C6: for a requested coordinate absent from the cache, after the region
    file was found and read and the uniform-chunk synthesis ran, either the
    coordinate is resident and `unserialize_submaps` returns its chunk, or
    it reports an integrity error carrying the file path and the coordinate
    and returns absent.  The embedded function is total, so no fatal error
    is possible. -/
theorem load_integrity (env : LoadEnv) (rd : ReadDisk) (c : Cache)
    (p : Tripoint) (hc : c.findVal p = none)
    (hf : (rd.lookupFile (resolve_quad_path env rd (omtOf p))).isSome =
      true) :
    (∃ sm, (unserialize_submaps env rd c p).cache.findVal p =
        some (some sm) ∧
      (unserialize_submaps env rd c p).result = some sm) ∨
    ((unserialize_submaps env rd c p).result = none ∧
      LogMsg.integrity (resolve_quad_path env rd (omtOf p)) p ∈
        (unserialize_submaps env rd c p).logs) := by
  obtain ⟨objs, hobjs⟩ := Option.isSome_iff_exists.mp hf
  have hnn : ((generate_uniform_omt (env.ter (omtOf p)) (smOf (omtOf p))
      (deserialize objs c).1).findVal p) ≠ some none := by
    apply generate_not_null
    apply deserialize_not_null
    rw [hc]
    intro hcon
    cases hcon
  unfold unserialize_submaps
  dsimp only
  rw [hobjs]
  dsimp only
  split
  · rename_i heq
    right
    exact ⟨rfl, by simp⟩
  · rename_i v heq
    cases v with
    | none => exact absurd heq hnn
    | some sm => exact Or.inl ⟨sm, heq, rfl⟩

/-- Load environment and disk for the C6 witness: the file holds one
    record outside the requested quad, and the terrain class fills the quad
    with uniform chunks. -/
def rdC : ReadDisk :=
  [("W/maps/0.0.0/0.0.0.map",
    [[("version", JVal.int 33), ("coordinates", JVal.arr [8, 8, 0]),
      ("terrain", JVal.payload 7)]])]

/-- Canonical-path load environment for the C6 witness. -/
def lenvC : LoadEnv :=
  ⟨"W", fun i => toString i, fun _ => ⟨true, { payload := 5 }⟩⟩

/-- Witness for C6 at coordinate `(0,0,0)` on an empty cache. -/
theorem load_integrity_witness :
    (∃ sm, (unserialize_submaps lenvC rdC [] ⟨0, 0, 0⟩).cache.findVal
        ⟨0, 0, 0⟩ = some (some sm) ∧
      (unserialize_submaps lenvC rdC [] ⟨0, 0, 0⟩).result = some sm) ∨
    ((unserialize_submaps lenvC rdC [] ⟨0, 0, 0⟩).result = none ∧
      LogMsg.integrity (resolve_quad_path lenvC rdC (omtOf ⟨0, 0, 0⟩))
        ⟨0, 0, 0⟩ ∈ (unserialize_submaps lenvC rdC [] ⟨0, 0, 0⟩).logs) :=
  load_integrity lenvC rdC [] ⟨0, 0, 0⟩ (by decide) (by decide)

end Mapbuffer
